import Mathlib

/-
Verification of the semverlint API diff engine.

This file gives a shallow embedding, in Lean 4, of the Go sources
src/api.go, src/change.go and src/diff.go of the semverlint repository,
and proves or refutes the frozen claims about them.

Modelling conventions:
- Go slices become List, Go strings become String, Go int becomes Int
  (positions) or Nat (semver components).
- go/types.Type is an interface value that the repository never inspects
  (typesEqual ignores its arguments entirely); it is modelled by the small
  inductive GoType below, wrapped in Option to account for Go interface nil
  (the zero value of a Const or TypeDef has a nil Type field).
- Go maps built by the index helpers become functions String -> Option a,
  exactly mirroring the last-write-wins assignment loop; the set of keys of
  such a map is the deduplicated list of names.  Go map iteration order is
  unspecified, so the top-level Diff loop is parameterised by the iteration
  order (DiffO); the canonical Diff instantiates it with one fixed order.
  Claim C8 is about that order dependence.
- The Change interface becomes an inductive tagged union, one constructor
  per concrete Go struct implementing Change.
-/

namespace Semverlint

/-- Model of go/types.Type descriptors.  The repository never inspects the
structure of a type (typesEqual ignores both arguments), so only a few
representative shapes are needed. -/
inductive GoType where
  | basic (name : String) : GoType
  | named (pkg name : String) : GoType
  | pointer (elem : GoType) : GoType
deriving DecidableEq, Repr

/-- DeclType from src/change.go (a byte enum in Go, iota constants). -/
inductive DeclType where
  | VarType
  | ConstType
  | FuncType
  | InterfaceType
  | StructType
  | TypeDefType
  | PackageType
deriving DecidableEq, Repr

/-- The Change interface from src/change.go as a tagged union: one
constructor per concrete change struct.  Field Type of the Go structs is
renamed Typ (Type is a Lean keyword). -/
inductive Change where
  | Removed : Change
  | Added : Change
  | ValueChanged (From To : String) : Change
  | TypeChanged (From To : Option GoType) : Change
  | PositionChanged (From To : Int) : Change
  | FieldChanged (Pos : Int) (Name : String) (Changes : List Change) : Change
  | ArgumentChanged (Pos : Int) (Name : String) (Typ : Option GoType)
      (Changes : List Change) : Change
  | ResultChanged (Pos : Int) (Typ : Option GoType) (Changes : List Change) : Change
  | DeclChange (Name : String) (Typ : DeclType) (Changes : List Change) : Change

/-- PackageChanges from src/change.go. -/
structure PackageChanges where
  name : String
  path : String
  changes : List Change

/-- APIChanges from src/change.go. -/
abbrev APIChanges := List PackageChanges

/-- Var from src/api.go. -/
structure Var where
  name : String
  type : Option GoType

/-- Const from src/api.go. -/
structure Const where
  name : String
  type : Option GoType
  value : String

/-- Func from src/api.go (field Return is renamed ret). -/
structure Func where
  name : String
  args : List (Option GoType)
  ret : List (Option GoType)

/-- Field from src/api.go. -/
structure Field where
  name : String
  type : Option GoType

/-- Struct from src/api.go. -/
structure Struct where
  name : String
  fields : List Field
  methods : List Func

/-- Interface from src/api.go. -/
structure Interface where
  name : String
  methods : List Func

/-- TypeDef from src/api.go. -/
structure TypeDef where
  name : String
  type : Option GoType
  Alias : Bool

/-- Package from src/api.go. -/
structure Package where
  name : String
  path : String
  vars : List Var
  consts : List Const
  funcs : List Func
  structs : List Struct
  interfaces : List Interface
  types : List TypeDef

/-- API from src/api.go: a list of packages. -/
abbrev API := List Package

/-- typesEqual from src/diff.go, verbatim: the body is the single
statement return false, regardless of the two arguments. -/
def typesEqual (a b : Option GoType) : Bool := false

/-- IsBreaking from src/change.go: a switch on the dynamic type of the
change; the DeclChange case scans children recursively, everything else
falls through to return false. -/
def isBreaking : Change → Bool
  | .Removed => true
  | .PositionChanged _ _ => true
  | .TypeChanged _ _ => true
  | .FieldChanged _ _ _ => true
  | .ResultChanged _ _ _ => true
  | .ArgumentChanged _ _ _ _ => true
  | .DeclChange _ _ cs => anyIsBreaking cs
  | .Added => false
  | .ValueChanged _ _ => false
where
  /-- The loop over c.Changes inside the DeclChange case of IsBreaking. -/
  anyIsBreaking : List Change → Bool
    | [] => false
    | c :: cs => isBreaking c || anyIsBreaking cs

/-- packagesIndex from src/diff.go: builds a path-keyed map by assignment
in list order, so a later package overwrites an earlier one with the same
path.  The Go map is modelled as a lookup function. -/
def packagesIndex (a : API) : String → Option Package :=
  a.foldl (fun result p => fun key => if key = p.path then some p else result key)
    (fun _ => none)

/-- constsIndex from src/diff.go (name-keyed, last write wins). -/
def constsIndex (xs : List Const) : String → Option Const :=
  xs.foldl (fun result x => fun key => if key = x.name then some x else result key)
    (fun _ => none)

/-- varsIndex from src/diff.go. -/
def varsIndex (xs : List Var) : String → Option Var :=
  xs.foldl (fun result x => fun key => if key = x.name then some x else result key)
    (fun _ => none)

/-- funcsIndex from src/diff.go. -/
def funcsIndex (xs : List Func) : String → Option Func :=
  xs.foldl (fun result x => fun key => if key = x.name then some x else result key)
    (fun _ => none)

/-- interfacesIndex from src/diff.go. -/
def interfacesIndex (xs : List Interface) : String → Option Interface :=
  xs.foldl (fun result x => fun key => if key = x.name then some x else result key)
    (fun _ => none)

/-- structsIndex from src/diff.go. -/
def structsIndex (xs : List Struct) : String → Option Struct :=
  xs.foldl (fun result x => fun key => if key = x.name then some x else result key)
    (fun _ => none)

/-- typesIndex from src/diff.go. -/
def typesIndex (xs : List TypeDef) : String → Option TypeDef :=
  xs.foldl (fun result x => fun key => if key = x.name then some x else result key)
    (fun _ => none)

/-- The key set of a name-keyed Go map, as a list: the declared names with
duplicates removed.  The order is one fixed representative of the
unspecified Go map iteration order. -/
def nameKeys (names : List String) : List String := names.dedup

/-- constsDiff from src/diff.go.  The first range loop runs over the keys
of the index of the first argument; note that the removed case does not
stop the comparison (there is no continue), so v2 is the Go zero value
Const when the name is absent from the second index, and the TypeChanged
and ValueChanged checks still run against that zero value.  The second
loop adds every key of the second index not seen in the first. -/
def constsDiff (prev current : List Const) : List Change :=
  let currentConsts := constsIndex current
  let prevConsts := constsIndex prev
  let prevNames := nameKeys (prev.map (fun x => x.name))
  let currentNames := nameKeys (current.map (fun x => x.name))
  (prevNames.flatMap (fun name =>
    match prevConsts name with
    | none => []
    | some v =>
      let r := currentConsts name
      let v2 := r.getD ⟨"", none, ""⟩
      (if r.isNone then [Change.DeclChange name DeclType.ConstType [Change.Removed]]
       else [])
      ++ (if typesEqual v.type v2.type then []
          else [Change.DeclChange name DeclType.ConstType
                 [Change.TypeChanged v.type v2.type]])
      ++ (if v.value = v2.value then []
          else [Change.DeclChange name DeclType.ConstType
                 [Change.ValueChanged v.value v2.value]])))
  ++ ((currentNames.filter (fun name => !(prevNames.contains name))).map
      (fun name => Change.DeclChange name DeclType.ConstType [Change.Added]))

/-- varsDiff from src/diff.go.  Unlike constsDiff this one has an
else-if, so a removed variable is not compared further. -/
def varsDiff (prev current : List Var) : List Change :=
  let currentVars := varsIndex current
  let prevVars := varsIndex prev
  let prevNames := nameKeys (prev.map (fun x => x.name))
  let currentNames := nameKeys (current.map (fun x => x.name))
  (prevNames.flatMap (fun name =>
    match prevVars name with
    | none => []
    | some v =>
      match currentVars name with
      | none => [Change.DeclChange name DeclType.VarType [Change.Removed]]
      | some v2 =>
        if typesEqual v.type v2.type then []
        else [Change.DeclChange name DeclType.VarType
               [Change.TypeChanged v.type v2.type]]))
  ++ ((currentNames.filter (fun name => !(prevNames.contains name))).map
      (fun name => Change.DeclChange name DeclType.VarType [Change.Added]))

/-- funcsDiff from src/diff.go: only Removed and Added are emitted; the
argument and result comparisons are unimplemented TODO comments in the
source, so a name-matched pair produces nothing. -/
def funcsDiff (prev current : List Func) : List Change :=
  let currentFuncs := funcsIndex current
  let prevFuncs := funcsIndex prev
  let prevNames := nameKeys (prev.map (fun x => x.name))
  let currentNames := nameKeys (current.map (fun x => x.name))
  (prevNames.flatMap (fun name =>
    match prevFuncs name with
    | none => []
    | some _ =>
      match currentFuncs name with
      | none => [Change.DeclChange name DeclType.FuncType [Change.Removed]]
      | some _ => []))
  ++ ((currentNames.filter (fun name => !(prevNames.contains name))).map
      (fun name => Change.DeclChange name DeclType.FuncType [Change.Added]))

/-- structsDiff from src/diff.go: fields and methods comparisons are
unimplemented TODO comments in the source. -/
def structsDiff (prev current : List Struct) : List Change :=
  let currentStructs := structsIndex current
  let prevStructs := structsIndex prev
  let prevNames := nameKeys (prev.map (fun x => x.name))
  let currentNames := nameKeys (current.map (fun x => x.name))
  (prevNames.flatMap (fun name =>
    match prevStructs name with
    | none => []
    | some _ =>
      match currentStructs name with
      | none => [Change.DeclChange name DeclType.StructType [Change.Removed]]
      | some _ => []))
  ++ ((currentNames.filter (fun name => !(prevNames.contains name))).map
      (fun name => Change.DeclChange name DeclType.StructType [Change.Added]))

/-- interfacesDiff from src/diff.go: the methods comparison is an
unimplemented TODO comment in the source. -/
def interfacesDiff (prev current : List Interface) : List Change :=
  let currentInterfaces := interfacesIndex current
  let prevInterfaces := interfacesIndex prev
  let prevNames := nameKeys (prev.map (fun x => x.name))
  let currentNames := nameKeys (current.map (fun x => x.name))
  (prevNames.flatMap (fun name =>
    match prevInterfaces name with
    | none => []
    | some _ =>
      match currentInterfaces name with
      | none => [Change.DeclChange name DeclType.InterfaceType [Change.Removed]]
      | some _ => []))
  ++ ((currentNames.filter (fun name => !(prevNames.contains name))).map
      (fun name => Change.DeclChange name DeclType.InterfaceType [Change.Added]))

/-- typesDiff from src/diff.go.  Like constsDiff, the removed case does
not stop: the type comparison still runs against the zero value TypeDef. -/
def typesDiff (prev current : List TypeDef) : List Change :=
  let currentTypes := typesIndex current
  let prevTypes := typesIndex prev
  let prevNames := nameKeys (prev.map (fun x => x.name))
  let currentNames := nameKeys (current.map (fun x => x.name))
  (prevNames.flatMap (fun name =>
    match prevTypes name with
    | none => []
    | some v =>
      let r := currentTypes name
      let v2 := r.getD ⟨"", none, false⟩
      (if r.isNone then [Change.DeclChange name DeclType.TypeDefType [Change.Removed]]
       else [])
      ++ (if typesEqual v.type v2.type then []
          else [Change.DeclChange name DeclType.TypeDefType
                 [Change.TypeChanged v.type v2.type]])))
  ++ ((currentNames.filter (fun name => !(prevNames.contains name))).map
      (fun name => Change.DeclChange name DeclType.TypeDefType [Change.Added]))

/-- packageDiff from src/diff.go: concatenates the six category diffs and
takes the reported name and path from its second parameter (named current
in the source). -/
def packageDiff (prev current : Package) : PackageChanges :=
  { name := current.name
    path := current.path
    changes :=
      constsDiff prev.consts current.consts
      ++ varsDiff prev.vars current.vars
      ++ funcsDiff prev.funcs current.funcs
      ++ structsDiff prev.structs current.structs
      ++ interfacesDiff prev.interfaces current.interfaces
      ++ typesDiff prev.types current.types }

/-- Diff from src/diff.go, parameterised by the iteration orders of the
two package maps (Go map iteration order is unspecified and randomised at
runtime).  prevOrder enumerates the keys of the index of the prev
snapshot, currentOrder those of the current snapshot.  Note the source
calls packageDiff(p2, p1), binding the current package to the parameter
named prev and vice versa. -/
def DiffO (prevOrder currentOrder : List String) (current prev : API) : APIChanges :=
  let currentPkgs := packagesIndex current
  let prevPkgs := packagesIndex prev
  (prevOrder.flatMap (fun path =>
    match prevPkgs path with
    | none => []
    | some p1 =>
      match currentPkgs path with
      | none =>
        [{ name := p1.name, path := p1.path,
           changes := [Change.DeclChange p1.name DeclType.PackageType [Change.Removed]] }]
      | some p2 => [packageDiff p2 p1]))
  ++ ((currentOrder.filter (fun path => !(prevOrder.contains path))).flatMap
      (fun path =>
        match currentPkgs path with
        | none => []
        | some p =>
          [{ name := p.name, path := p.path,
             changes := [Change.DeclChange p.name DeclType.PackageType [Change.Added]] }]))

/-- The key list of the package map of an API snapshot, in the canonical
representative order. -/
def pathKeys (a : API) : List String := nameKeys (a.map (fun p => p.path))

/-- Diff from src/diff.go at the canonical iteration order. -/
def Diff (current prev : API) : APIChanges :=
  DiffO (pathKeys prev) (pathKeys current) current prev

/-- Model of a semantic version as parsed by the external
github.com/Masterminds/semver library: the comparison used by the source
(Version.LessThan) orders by major, then minor, then patch.  Prerelease
ordering of that library is not needed by any claim and is not modelled. -/
structure SemVer where
  major : Nat
  minor : Nat
  patch : Nat
deriving DecidableEq, Repr

/-- The LessThan comparison of the semver library on release versions:
lexicographic on (major, minor, patch). -/
def semLess (a b : SemVer) : Bool :=
  if a.major ≠ b.major then decide (a.major < b.major)
  else if a.minor ≠ b.minor then decide (a.minor < b.minor)
  else decide (a.patch < b.patch)

/-- Version from src/api.go.  The Commit hash plays no role in any claim
and is dropped.  The field sem carries the result of parsing name with the
semver library (none for the HEAD sentinel, whose name never parses):
byVersion.Less re-parses the name with semver.MustParse at each
comparison, which the model represents by reading this precomputed
field. -/
structure Version where
  name : String
  sem : Option SemVer
deriving DecidableEq, Repr

/-- The value semver.MustParse(v.Name) evaluates to in the model. -/
def semOf (v : Version) : SemVer := v.sem.getD ⟨0, 0, 0⟩

/-- byVersion.Less from src/api.go: the HEAD sentinel compares less than
everything, otherwise the parsed semantic versions are compared. -/
def byVersionLess (a b : Version) : Bool :=
  if a.name = "HEAD" then true
  else if b.name = "HEAD" then false
  else semLess (semOf a) (semOf b)

/-- The comparison on versions once both are known not to be the HEAD
sentinel: just the semver comparison of the parsed names. -/
def semVLess (a b : Version) : Bool := semLess (semOf a) (semOf b)

/-- The HEAD sentinel that Versions prepends before sorting. -/
def headVersion : Version := ⟨"HEAD", none⟩

/-- One tag as seen by the loop in Versions (src/api.go):  shortName is
tag.Name().Short(); pointsToCommit records whether r.CommitObject
succeeds (the ErrObjectNotFound skip); parsed is the result of
semver.NewVersion on the short name (none when parsing fails).  The fatal
error paths of the loop abort the whole function and produce no list, so
they need no modelling for the ordering claim. -/
structure TagRef where
  shortName : String
  parsed : Option SemVer
  pointsToCommit : Bool
deriving DecidableEq, Repr

/-- Stable insertion of x into l: x goes before the first element y with
less y x false, so equal elements keep their relative order. -/
def insertSorted {α : Type} (less : α → α → Bool) (x : α) : List α → List α
  | [] => [x]
  | y :: ys => if less y x then y :: insertSorted less x ys else x :: y :: ys

/-- Stable sort with respect to a boolean strict comparison; models
sort.Stable from the Go standard library, whose output for a consistent
comparator is the unique stable sorted reordering. -/
def sortStable {α : Type} (less : α → α → Bool) : List α → List α
  | [] => []
  | x :: xs => insertSorted less x (sortStable less xs)

/-- The list Versions (src/api.go) returns on the happy path: the HEAD
sentinel, then every tag that resolves to a commit and parses as a
semantic version, all sorted stably by byVersion.Less. -/
def versionsList (tags : List TagRef) : List Version :=
  sortStable byVersionLess
    (headVersion ::
      (tags.filter (fun t => t.pointsToCommit && t.parsed.isSome)).map
        (fun t => ⟨t.shortName, t.parsed⟩))

/-- A basic int type descriptor, used by the concrete examples. -/
def tInt : Option GoType := some (GoType.basic "int")

/-- A basic string type descriptor, used by the concrete examples. -/
def tString : Option GoType := some (GoType.basic "string")

/-- A one-package snapshot holding the given constants. -/
def apiConsts (cs : List Const) : API :=
  [{ name := "p", path := "p", vars := [], consts := cs, funcs := [],
     structs := [], interfaces := [], types := [] }]

/-- A one-package snapshot holding the given functions. -/
def apiFuncs (fs : List Func) : API :=
  [{ name := "p", path := "p", vars := [], consts := [], funcs := fs,
     structs := [], interfaces := [], types := [] }]

/-- Snapshot with one constant X of type int and value 1. -/
def apiX1 : API := apiConsts [⟨"X", tInt, "1"⟩]

/-- Snapshot with one constant X of type int and value 2. -/
def apiX2 : API := apiConsts [⟨"X", tInt, "2"⟩]

/-- Snapshot with no constants. -/
def apiNoConsts : API := apiConsts []

/-- Snapshot with one function F taking an int. -/
def apiFInt : API := apiFuncs [⟨"F", [tInt], []⟩]

/-- Snapshot with one function F taking a string. -/
def apiFString : API := apiFuncs [⟨"F", [tString], []⟩]

/-- A two-package snapshot with paths a and b, used for the iteration
order counterexample. -/
def apiAB : API :=
  [{ name := "a", path := "a", vars := [], consts := [], funcs := [],
     structs := [], interfaces := [], types := [] },
   { name := "b", path := "b", vars := [], consts := [], funcs := [],
     structs := [], interfaces := [], types := [] }]

/-- Concrete tag list for the Versions witness: a valid 1.0.0 tag, a
valid 0.9.0 tag, a tag that is not a semantic version, and a semver tag
that does not point to a commit. -/
def tags0 : List TagRef :=
  [⟨"1.0.0", some ⟨1, 0, 0⟩, true⟩,
   ⟨"0.9.0", some ⟨0, 9, 0⟩, true⟩,
   ⟨"not-semver", none, true⟩,
   ⟨"2.0.0", some ⟨2, 0, 0⟩, false⟩]

/-- The loop inside the DeclChange case of IsBreaking returns true exactly
when some child is breaking. -/
theorem anyIsBreaking_iff (cs : List Change) :
    isBreaking.anyIsBreaking cs = true ↔ ∃ c ∈ cs, isBreaking c = true := by
  induction cs with
  | nil => simp [isBreaking.anyIsBreaking]
  | cons c cs ih => simp [isBreaking.anyIsBreaking, ih]

/-- Unfolding of the lexicographic semver comparison. -/
theorem semLess_iff (a b : SemVer) :
    semLess a b = true ↔
      (a.major < b.major
        ∨ (a.major = b.major
            ∧ (a.minor < b.minor ∨ (a.minor = b.minor ∧ a.patch < b.patch)))) := by
  unfold semLess
  split_ifs <;> simp <;> omega

/-- The semver comparison is asymmetric. -/
theorem semLess_asymm (a b : SemVer) (h : semLess a b = true) : semLess b a = false := by
  cases hc : semLess b a with
  | false => rfl
  | true =>
    have h1 := (semLess_iff a b).mp h
    have h2 := (semLess_iff b a).mp hc
    exfalso
    omega

/-- Negative transitivity of the semver comparison. -/
theorem semLess_negtrans (a b c : SemVer) (h1 : semLess b a = false)
    (h2 : semLess c b = false) : semLess c a = false := by
  cases hc : semLess c a with
  | false => rfl
  | true =>
    have g := (semLess_iff c a).mp hc
    have g1 : ¬(semLess b a = true) := by simp [h1]
    have g2 : ¬(semLess c b = true) := by simp [h2]
    rw [semLess_iff] at g1 g2
    exfalso
    omega

/-- Stable insertion permutes. -/
theorem insertSorted_perm {α : Type} (less : α → α → Bool) (x : α) (l : List α) :
    List.Perm (insertSorted less x l) (x :: l) := by
  induction l with
  | nil => exact List.Perm.refl _
  | cons y ys ih =>
    cases hc : less y x with
    | true =>
      simp only [insertSorted, hc, if_true]
      exact List.Perm.trans (List.Perm.cons y ih) (List.Perm.swap x y ys)
    | false =>
      simp only [insertSorted, hc, Bool.false_eq_true, if_false]
      exact List.Perm.refl _

/-- The stable sort permutes its input. -/
theorem sortStable_perm {α : Type} (less : α → α → Bool) (l : List α) :
    List.Perm (sortStable less l) l := by
  induction l with
  | nil => exact List.Perm.refl _
  | cons x xs ih =>
    simp only [sortStable]
    exact List.Perm.trans (insertSorted_perm less x _) (List.Perm.cons x ih)

/-- Membership is preserved by the stable sort. -/
theorem mem_sortStable {α : Type} (less : α → α → Bool) (a : α) (l : List α) :
    a ∈ sortStable less l ↔ a ∈ l :=
  (sortStable_perm less l).mem_iff

/-- Insertion only inspects the comparison against members of the list. -/
theorem insertSorted_congr {α : Type} (less leB : α → α → Bool) (x : α) (l : List α)
    (h : ∀ b ∈ l, less b x = leB b x) :
    insertSorted less x l = insertSorted leB x l := by
  induction l with
  | nil => rfl
  | cons y ys ih =>
    have hy := h y (List.mem_cons_self y ys)
    have ih' := ih (fun b hb => h b (List.mem_cons_of_mem _ hb))
    cases hc : leB y x with
    | true => simp [insertSorted, hy, hc, ih']
    | false => simp [insertSorted, hy, hc]

/-- The stable sort only inspects comparisons between members. -/
theorem sortStable_congr {α : Type} (less leB : α → α → Bool) (l : List α)
    (h : ∀ a ∈ l, ∀ b ∈ l, less a b = leB a b) :
    sortStable less l = sortStable leB l := by
  induction l with
  | nil => rfl
  | cons x xs ih =>
    have ih' := ih (fun a ha b hb =>
      h a (List.mem_cons_of_mem _ ha) b (List.mem_cons_of_mem _ hb))
    simp only [sortStable]
    rw [ih']
    apply insertSorted_congr
    intro b hb
    have hbxs : b ∈ xs := (mem_sortStable leB b xs).mp hb
    exact h b (List.mem_cons_of_mem _ hbxs) x (List.mem_cons_self _ _)

/-- An element that no list member compares below goes to the front. -/
theorem insertSorted_front {α : Type} (less : α → α → Bool) (x : α) (l : List α)
    (h : ∀ y ∈ l, less y x = false) :
    insertSorted less x l = x :: l := by
  cases l with
  | nil => rfl
  | cons y ys => simp [insertSorted, h y (List.mem_cons_self y ys)]

/-- Inserting into a sorted list keeps it sorted, for an asymmetric and
negatively transitive comparison. -/
theorem insertSorted_pairwise {α : Type} (less : α → α → Bool)
    (hasym : ∀ a b, less a b = true → less b a = false)
    (hneg : ∀ a b c, less b a = false → less c b = false → less c a = false)
    (x : α) (l : List α) (hl : List.Pairwise (fun a b => less b a = false) l) :
    List.Pairwise (fun a b => less b a = false) (insertSorted less x l) := by
  induction l with
  | nil => simp [insertSorted]
  | cons y ys ih =>
    rcases List.pairwise_cons.mp hl with ⟨hy, hys⟩
    cases hc : less y x with
    | true =>
      simp only [insertSorted, hc, if_true]
      refine List.pairwise_cons.mpr ⟨?_, ih hys⟩
      intro z hz
      have hz' : z ∈ x :: ys := (insertSorted_perm less x ys).mem_iff.mp hz
      rcases List.mem_cons.mp hz' with rfl | hzys
      · exact hasym y z hc
      · exact hy z hzys
    | false =>
      simp only [insertSorted, hc, Bool.false_eq_true, if_false]
      refine List.pairwise_cons.mpr ⟨?_, hl⟩
      intro z hz
      rcases List.mem_cons.mp hz with rfl | hzys
      · exact hc
      · exact hneg x y z hc (hy z hzys)

/-- The stable sort sorts, for an asymmetric and negatively transitive
comparison. -/
theorem sortStable_pairwise {α : Type} (less : α → α → Bool)
    (hasym : ∀ a b, less a b = true → less b a = false)
    (hneg : ∀ a b c, less b a = false → less c b = false → less c a = false)
    (l : List α) :
    List.Pairwise (fun a b => less b a = false) (sortStable less l) := by
  induction l with
  | nil => simp [sortStable]
  | cons x xs ih =>
    simp only [sortStable]
    exact insertSorted_pairwise less hasym hneg x _ ih

/-- Nothing compares below the HEAD sentinel under byVersion.Less, except
an element itself named HEAD. -/
theorem byVersionLess_to_head {y : Version} (hy : y.name ≠ "HEAD") :
    byVersionLess y headVersion = false := by
  simp [byVersionLess, headVersion, hy]

/-- Away from the HEAD sentinel, byVersion.Less is the semver comparison
of the parsed names. -/
theorem byVersionLess_eq_semVLess {a b : Version} (ha : a.name ≠ "HEAD")
    (hb : b.name ≠ "HEAD") :
    byVersionLess a b = semVLess a b := by
  simp [byVersionLess, semVLess, ha, hb]

/-- The last-write-wins lookup built by the index helpers finds the last
entry of the list whose key matches. -/
theorem indexLast {α : Type} (f : α → String) (xs : List α) (n : String) :
    xs.foldl (fun result x => fun key => if key = f x then some x else result key)
      (fun _ => none) n
    = xs.reverse.find? (fun x => f x == n) := by
  induction xs using List.reverseRecOn with
  | nil => rfl
  | append_singleton xs x ih =>
    rw [List.foldl_append]
    simp only [List.foldl_cons, List.foldl_nil, List.reverse_append,
      List.reverse_singleton, List.singleton_append, List.find?_cons]
    by_cases h : n = f x
    · simp [h]
    · have h' : ¬(f x = n) := fun hh => h hh.symm
      have hb : (f x == n) = false := beq_eq_false_iff_ne.mpr h'
      simp [h, hb, ih]

/-- Claim C1: refuted on the code.  The type identity predicate typesEqual
is claimed reflexive; the source body is the single statement return
false, so it returns false on every pair, including a descriptor compared
with itself. -/
theorem typesEqual_always_false : ∀ (a b : Option GoType), typesEqual a b = false :=
  fun _ _ => rfl

/-- Claim C2: refuted on the code.  Diffing a snapshot against itself is
claimed to yield no changes; because typesEqual always reports false, the
constant X of the one-package snapshot apiX1 produces a spurious
TypeChanged record when the snapshot is diffed with itself. -/
theorem diff_self_emits_spurious_change :
    Diff apiX1 apiX1 =
      [{ name := "p", path := "p",
         changes := [Change.DeclChange "X" DeclType.ConstType
           [Change.TypeChanged tInt tInt]] }] := by
  rfl

/-- Claim C3: refuted on the code.  A constant present only in the prev
snapshot is claimed to be reported as exactly Removed with IsBreaking
true; because Diff passes the two packages to packageDiff in swapped
order, the removed constant is instead reported as Added, a change that
IsBreaking classifies as non-breaking. -/
theorem removed_const_reported_as_added :
    Diff apiNoConsts apiX1 =
      [{ name := "p", path := "p",
         changes := [Change.DeclChange "X" DeclType.ConstType [Change.Added]] }]
    ∧ isBreaking (Change.DeclChange "X" DeclType.ConstType [Change.Added]) = false := by
  exact ⟨rfl, rfl⟩

/-- Claim C4: confirmed.  IsBreaking returns true exactly on Removed,
PositionChanged, TypeChanged, FieldChanged, ResultChanged,
ArgumentChanged, and on a DeclChange with at least one recursively
breaking child; Added and ValueChanged are never breaking, and a
DeclChange whose children are all non-breaking is non-breaking. -/
theorem isBreaking_characterisation :
    (∀ c : Change, isBreaking c = true ↔
      (c = Change.Removed
        ∨ (∃ f t, c = Change.PositionChanged f t)
        ∨ (∃ f t, c = Change.TypeChanged f t)
        ∨ (∃ p n cs, c = Change.FieldChanged p n cs)
        ∨ (∃ p t cs, c = Change.ResultChanged p t cs)
        ∨ (∃ p n t cs, c = Change.ArgumentChanged p n t cs)
        ∨ (∃ n k cs, c = Change.DeclChange n k cs ∧ ∃ ch ∈ cs, isBreaking ch = true)))
    ∧ isBreaking Change.Added = false
    ∧ (∀ f t, isBreaking (Change.ValueChanged f t) = false)
    ∧ (∀ n k cs, (∀ ch ∈ cs, isBreaking ch = false) →
        isBreaking (Change.DeclChange n k cs) = false) := by
  refine ⟨?_, rfl, fun f t => rfl, ?_⟩
  · intro c
    cases c with
    | Removed => simp [isBreaking]
    | Added => simp [isBreaking]
    | ValueChanged f t => simp [isBreaking]
    | TypeChanged f t => simp [isBreaking]
    | PositionChanged f t => simp [isBreaking]
    | FieldChanged p n cs => simp [isBreaking]
    | ArgumentChanged p n t cs => simp [isBreaking]
    | ResultChanged p t cs => simp [isBreaking]
    | DeclChange n k cs =>
      simp [isBreaking, anyIsBreaking_iff]
      constructor
      · intro hh
        exact ⟨n, k, cs, ⟨rfl, rfl, rfl⟩, hh⟩
      · rintro ⟨n1, k1, cs1, ⟨rfl, rfl, rfl⟩, hh⟩
        exact hh
  · intro n k cs h
    have hb : isBreaking.anyIsBreaking cs = false := by
      cases hb : isBreaking.anyIsBreaking cs with
      | false => rfl
      | true =>
        obtain ⟨ch, hm, hbr⟩ := (anyIsBreaking_iff cs).mp hb
        rw [h ch hm] at hbr
        exact absurd hbr (by simp)
    simpa [isBreaking] using hb

/-- Claim C5: refuted on the code.  For two same-name constants with equal
type descriptors and different values, the claim expects a single
non-breaking DeclChange holding only ValueChanged; because typesEqual is a
stub that always reports false, the code additionally emits a separate
DeclChange holding a breaking TypeChanged (with equal from and to), and
the from and to of the ValueChanged are swapped relative to the
snapshots. -/
theorem value_change_also_reports_type_change :
    Diff apiX2 apiX1 =
      [{ name := "p", path := "p",
         changes := [Change.DeclChange "X" DeclType.ConstType
                       [Change.TypeChanged tInt tInt],
                     Change.DeclChange "X" DeclType.ConstType
                       [Change.ValueChanged "2" "1"]] }]
    ∧ isBreaking (Change.DeclChange "X" DeclType.ConstType
        [Change.TypeChanged tInt tInt]) = true := by
  exact ⟨rfl, rfl⟩

/-- Claim C6: refuted on the code.  A constant present only in the current
snapshot is claimed to be reported as exactly Added; because of the
swapped packageDiff call, the code reports it as Removed, and because the
removed branch does not stop the comparison and typesEqual is a stub, it
further emits TypeChanged against the zero-value constant and ValueChanged
from the value to the empty string. -/
theorem added_const_reported_as_removed :
    Diff apiX1 apiNoConsts =
      [{ name := "p", path := "p",
         changes := [Change.DeclChange "X" DeclType.ConstType [Change.Removed],
                     Change.DeclChange "X" DeclType.ConstType
                       [Change.TypeChanged tInt none],
                     Change.DeclChange "X" DeclType.ConstType
                       [Change.ValueChanged "1" ""]] }] := by
  rfl

/-- Claim C7: refuted on the code.  Two functions matched by name whose
argument lists differ are claimed to produce at least one change record;
the argument and result comparisons in funcsDiff are unimplemented TODO
comments, so the diff of the two one-function snapshots is a package entry
with an empty change list. -/
theorem func_signature_change_not_reported :
    Diff apiFString apiFInt =
      [{ name := "p", path := "p", changes := [] }] := by
  rfl

/-- Claim C8: refuted on the code.  Diff iterates a Go map whose iteration
order is unspecified; with no sorting of the output, two valid iteration
orders of the same two-package input produce differently ordered
APIChanges, so runs are not byte-identical and the ordering is not the
claimed stable sort. -/
theorem diff_output_depends_on_iteration_order :
    List.Perm ["a", "b"] (pathKeys apiAB)
    ∧ List.Perm ["b", "a"] (pathKeys apiAB)
    ∧ DiffO ["a", "b"] [] [] apiAB ≠ DiffO ["b", "a"] [] [] apiAB := by
  refine ⟨by decide, by decide, fun h => ?_⟩
  have hp := congrArg (List.map PackageChanges.path) h
  exact absurd hp (by decide)

/-- Claim C9: confirmed.  On the happy path, the list returned by
Versions is the HEAD sentinel first, followed by the surviving tags in
ascending semantic-version order, and the tags that survive are exactly
those that point to a commit and parse as semantic versions.  The
hypothesis records that a tag whose name is literally HEAD cannot parse as
a semantic version. -/
theorem Versions_ordering (tags : List TagRef)
    (h : ∀ t ∈ tags, t.parsed.isSome = true → t.shortName ≠ "HEAD") :
    (versionsList tags).head? = some headVersion
    ∧ List.Pairwise (fun a b => semVLess b a = false) (versionsList tags).tail
    ∧ List.Perm (versionsList tags).tail
        ((tags.filter (fun t => t.pointsToCommit && t.parsed.isSome)).map
          (fun t => ⟨t.shortName, t.parsed⟩)) := by
  set fvs : List Version :=
    (tags.filter (fun t => t.pointsToCommit && t.parsed.isSome)).map
      (fun t => ⟨t.shortName, t.parsed⟩) with hfvs
  have hmem : ∀ v ∈ fvs, v.name ≠ "HEAD" := by
    intro v hv
    rw [hfvs] at hv
    obtain ⟨t, ht, rfl⟩ := List.mem_map.mp hv
    obtain ⟨ht', hcond⟩ := List.mem_filter.mp ht
    obtain ⟨_, hsome⟩ := Bool.and_eq_true _ _ |>.mp hcond
    exact h t ht' hsome
  have hfront : versionsList tags = headVersion :: sortStable byVersionLess fvs := by
    show insertSorted byVersionLess headVersion (sortStable byVersionLess fvs)
      = headVersion :: sortStable byVersionLess fvs
    apply insertSorted_front
    intro y hy
    exact byVersionLess_to_head (hmem y ((mem_sortStable byVersionLess y fvs).mp hy))
  have hcongr : sortStable byVersionLess fvs = sortStable semVLess fvs := by
    apply sortStable_congr
    intro a ha b hb
    exact byVersionLess_eq_semVLess (hmem a ha) (hmem b hb)
  have htail : (versionsList tags).tail = sortStable byVersionLess fvs := by
    rw [hfront]
    rfl
  refine ⟨by rw [hfront]; rfl, ?_, ?_⟩
  · rw [htail, hcongr]
    exact sortStable_pairwise semVLess
      (fun a b hab => semLess_asymm _ _ hab)
      (fun a b c h1 h2 => semLess_negtrans _ _ _ h1 h2)
      fvs
  · rw [htail]
    exact sortStable_perm byVersionLess fvs

/-- Witness for claim C9 at the concrete tag list tags0: the hypothesis
holds by computation and the conclusion is the theorem applied there. -/
theorem Versions_ordering_witness :
    (∀ t ∈ tags0, t.parsed.isSome = true → t.shortName ≠ "HEAD")
    ∧ ((versionsList tags0).head? = some headVersion
       ∧ List.Pairwise (fun a b => semVLess b a = false) (versionsList tags0).tail
       ∧ List.Perm (versionsList tags0).tail
           ((tags0.filter (fun t => t.pointsToCommit && t.parsed.isSome)).map
             (fun t => ⟨t.shortName, t.parsed⟩))) :=
  ⟨by decide, Versions_ordering tags0 (by decide)⟩

/-- Claim C10: confirmed.  The name-keyed index of constants and the
path-keyed index of packages both map a key to the last matching entry in
list order, so earlier duplicates are ignored. -/
theorem index_last_wins :
    (∀ (xs : List Const) (n : String),
      constsIndex xs n = xs.reverse.find? (fun c => c.name == n))
    ∧ (∀ (a : API) (p : String),
      packagesIndex a p = a.reverse.find? (fun q => q.path == p)) :=
  ⟨fun xs n => @indexLast Const (fun c => c.name) xs n,
   fun a p => @indexLast Package (fun q => q.path) a p⟩

end Semverlint
